import Mathlib

/-!
# Verification of the `rebalancer` capital-rebalancing engine

Shallow embedding of the core numeric logic of the `rebalancer` Solana
program (`programs/rebalancer/src`), together with theorems settling the
frozen claims about it.

Machine integers are modelled as `Nat`, with an explicit `% 2^w` at every
point where the Rust release-mode semantics can wrap (plain `u64`
multiplication, `as u64` / `as u32` / `as u8` casts, wrapping sums), and
`Nat` truncated subtraction standing for Rust `saturating_sub`.
`Pubkey` (an opaque 32-byte identifier compared only for equality) is
modelled as `Nat`, with `Pubkey::default()` as `0`.  Fallible Rust
functions returning `Result<T>` become `Except Err T`.  Fixed-size
`reserved` padding and PDA `bump` fields are on-chain storage-layout
artifacts with no behavioral meaning and are omitted from the records.
-/

namespace Rebalancer

/-- `2^64`, the modulus of `u64` arithmetic. -/
def U64MOD : Nat := 18446744073709551616

/-- `2^32`, the modulus of `u32` arithmetic. -/
def U32MOD : Nat := 4294967296

/-- `u64::MAX / 1000`, the per-allocation amount bound used by
`validate_allocations`. -/
def U64MAXDIV1000 : Nat := 18446744073709551

/-- The error codes of `errors.rs` that the embedded functions can surface
(`RebalancerErrorCode`; variants not reachable from the embedded
functions are omitted). -/
inductive Err where
  | invalidRebalanceThreshold
  | balanceOverflow
  | insufficientBalance
  | insufficientStrategies
  | tooManyStrategies
  | invalidPerformanceScore
  | duplicateStrategy
  deriving DecidableEq, Repr

instance {ε α : Type} [DecidableEq ε] [DecidableEq α] : DecidableEq (Except ε α) := fun x y =>
  match x, y with
  | .ok a, .ok b => if h : a = b then .isTrue (by rw [h]) else .isFalse (by simp [h])
  | .error a, .error b => if h : a = b then .isTrue (by rw [h]) else .isFalse (by simp [h])
  | .ok _, .error _ => .isFalse (by simp)
  | .error _, .ok _ => .isFalse (by simp)

/-- `utils::calculate_dynamic_threshold`: validates `base_threshold <= 100`,
computes `adjustment = average_volatility * 20 / 10000` in `u64`, adds with
`checked_add` (error `BalanceOverflow` on `u64` overflow), truncates with
`as u8` (`% 256`) and clamps the result to `[10, 40]`. -/
def calculate_dynamic_threshold (base_threshold average_volatility : Nat) :
    Except Err Nat :=
  if 100 < base_threshold then .error .invalidRebalanceThreshold
  else
    let volatility_adjustment := average_volatility * 20 / 10000
    if U64MOD ≤ base_threshold + volatility_adjustment then .error .balanceOverflow
    else
      let dynamic_threshold := (base_threshold + volatility_adjustment) % 256
      .ok (max 10 (min dynamic_threshold 40))

/-- `state::strategy::StrategyStatus`. -/
inductive StrategyStatus where
  | active
  | paused
  | deprecated
  deriving DecidableEq, Repr

/-- `state::strategy::ProtocolType`.  `Pubkey` fields are `Nat`; the numeric
parameters keep their source order. -/
inductive ProtocolType where
  | stableLending (pool_id reserve_address : Nat) (utilization : Nat)
  | yieldFarming (pair_id token_a_mint token_b_mint : Nat)
      (fee_tier reward_multiplier : Nat)
  | liquidStaking (validator_id stake_pool : Nat) (unstake_delay commission : Nat)
  deriving DecidableEq, Repr

/-- `state::strategy::Strategy` (account record; `bump`/`reserved` layout
fields omitted). -/
structure Strategy where
  strategy_id : Nat
  current_balance : Nat
  yield_rate : Nat
  performance_score : Nat
  total_deposits : Nat
  total_withdrawals : Nat
  protocol_type : ProtocolType
  volatility_score : Nat
  last_updated : Int
  creation_time : Int
  status : StrategyStatus
  percentile_rank : Nat
  deriving DecidableEq, Repr

/-- `state::portfolio::Portfolio` (account record; `bump`/`reserved` layout
fields omitted). -/
structure Portfolio where
  manager : Nat
  total_capital_moved : Nat
  last_rebalance : Int
  min_rebalance_interval : Int
  portfolio_creation : Int
  total_strategies : Nat
  performance_fee_bps : Nat
  base_threshold : Nat
  emergency_pause : Bool
  deriving DecidableEq, Repr

/-- `execute_ranking::StrategyData`, the helper record ranked by
`calculate_percentile_rankings`. -/
structure StrategyData where
  strategy_id : Nat
  performance_score : Nat
  current_balance : Nat
  volatility_score : Nat
  percentile_rank : Nat
  rebalance_threshold : Nat
  deriving DecidableEq, Repr

/-- The sort order of `calculate_percentile_rankings`: `a` precedes `b` when
the comparator `b.performance_score.cmp(&a.performance_score)
.then(b.current_balance.cmp(&a.current_balance))
.then(a.volatility_score.cmp(&b.volatility_score))` is not `Greater`:
performance score descending, then current balance descending, then
volatility score ascending. -/
def rankLE (a b : StrategyData) : Prop :=
  b.performance_score < a.performance_score ∨
    (a.performance_score = b.performance_score ∧
      (b.current_balance < a.current_balance ∨
        (a.current_balance = b.current_balance ∧
          a.volatility_score ≤ b.volatility_score)))

instance : DecidableRel rankLE := fun a b => by unfold rankLE; infer_instance

instance : IsTotal StrategyData rankLE := ⟨by intro a b; unfold rankLE; omega⟩

instance : IsTrans StrategyData rankLE :=
  ⟨by intro a b c hab hbc; unfold rankLE at hab hbc ⊢; omega⟩

/-- Percentile rank assigned at sorted index `i` of `n` strategies:
`50` for a single strategy, else `(n - 1 - i) * 100 / (n - 1)` truncated by
the `as u8` cast (`% 256`). -/
def percentile_of (n i : Nat) : Nat :=
  if n = 1 then 50 else (n - 1 - i) * 100 / (n - 1) % 256

/-- Wrapping `usize` subtraction (release-mode Rust); every use here has the
subtrahend below `2^64`. -/
def usize_sub (a b : Nat) : Nat := (a + U64MOD - b % U64MOD) % U64MOD

/-- The per-index body of `calculate_percentile_rankings`'s loop: walking the
sorted list with index `i`, it assigns each strategy its percentile rank,
and (only in the `4 < n` branch) pushes the strategy id onto the
underperformer list when `index >= total_strategies - threshold_strategies`
with `threshold_strategies = max(n * rebalance_threshold / 100, 1)`
(`usize` arithmetic).  For `n ≤ 4` the source computes the literal `0u8`
and never pushes. -/
def assign_and_flag (n : Nat) : Nat → List StrategyData → List StrategyData × List Nat
  | _, [] => ([], [])
  | i, s :: rest =>
    let s' := { s with percentile_rank := percentile_of n i }
    let res := assign_and_flag n (i + 1) rest
    if n ≤ 4 then (s' :: res.1, res.2)
    else
      let threshold_strategies := max (n * s.rebalance_threshold % U64MOD / 100) 1
      if usize_sub n threshold_strategies ≤ i then
        (s' :: res.1, s.strategy_id :: res.2)
      else (s' :: res.1, res.2)

/-- `execute_ranking::calculate_percentile_rankings`: errors on an empty
list, otherwise stable-sorts by `rankLE` (Rust `sort_by` is a stable sort,
so insertion sort produces the same list), assigns percentile ranks in
place and returns the updated list together with the pushed underperformer
ids. -/
def calculate_percentile_rankings (strategies : List StrategyData) :
    Except Err (List StrategyData × List Nat) :=
  if strategies = [] then .error .insufficientStrategies
  else
    let sorted := List.insertionSort rankLE strategies
    .ok (assign_and_flag sorted.length 0 sorted)

/-- `execute_ranking::should_rebalance_strategy`. -/
def should_rebalance_strategy (strategy : Strategy) (portfolio_threshold : Nat) :
    Bool :=
  if strategy.status ≠ StrategyStatus.active then false
  else if strategy.current_balance < 50000000 then false
  else decide (strategy.percentile_rank < portfolio_threshold)

/-- `redistribute_capital::AllocationType`. -/
inductive AllocationType where
  | platformFee
  | managerIncentive
  | topPerformer
  | riskDiversification
  deriving DecidableEq, Repr

/-- `CapitalAllocation` (constructed and consumed by
`redistribute_capital.rs`). -/
structure CapitalAllocation where
  strategy_id : Nat
  amount : Nat
  allocation_type : AllocationType
  deriving DecidableEq, Repr

/-- `redistribute_capital::RiskLimits`. -/
structure RiskLimits where
  max_single_strategy_bps : Nat
  min_single_strategy_bps : Nat
  platform_fee_bps : Nat
  manager_fee_bps : Nat
  risk_tolerance_bps : Nat
  platform_treasury : Nat
  manager_treasury : Nat
  deriving DecidableEq, Repr

/-- `RiskLimits::default()`: 40% max, 1% min, 0.5% platform fee, 1.5%
manager fee, 80% risk tolerance, both treasuries `Pubkey::default()`. -/
def RiskLimits.default : RiskLimits :=
  { max_single_strategy_bps := 4000
    min_single_strategy_bps := 100
    platform_fee_bps := 50
    manager_fee_bps := 150
    risk_tolerance_bps := 8000
    platform_treasury := 0
    manager_treasury := 0 }

/-- `redistribute_capital::StrategyPerformanceData`. -/
structure StrategyPerformanceData where
  strategy_id : Nat
  performance_score : Nat
  current_balance : Nat
  volatility_score : Nat
  protocol_type : ProtocolType
  percentile_rank : Nat
  deriving DecidableEq, Repr

/-- `redistribute_capital::calculate_risk_adjustment`: clamps volatility to
10000, maps its inverse linearly onto `[5000, 15000]` (the intermediate
`u64` product is at most `10000 * 10000` and the quotient at most `10000`,
so that cast back to `u32` is exact), scales by the risk tolerance with a
plain `u64` multiplication (wraps at `2^64`), truncates with `as u32`
(`% 2^32`) and caps at `15000`. -/
def calculate_risk_adjustment (volatility_score : Nat) (risk_limits : RiskLimits) :
    Nat :=
  let volatility_percentage := min volatility_score 10000
  let inverse_volatility := 10000 - volatility_percentage
  let min_multiplier := 5000
  let max_multiplier := 15000
  let risk_multiplier :=
    min_multiplier + inverse_volatility * (max_multiplier - min_multiplier) / 10000
  let final_multiplier :=
    risk_multiplier * risk_limits.risk_tolerance_bps % U64MOD / 10000
  min (final_multiplier % U32MOD) max_multiplier

/-- Platform fee of `calculate_optimal_allocation`:
`(available_capital * platform_fee_bps) / 10000` with a plain wrapping
`u64` multiplication. -/
def platform_fee_calc (available_capital : Nat) (risk_limits : RiskLimits) : Nat :=
  available_capital * risk_limits.platform_fee_bps % U64MOD / 10000

/-- Manager fee of `calculate_optimal_allocation` (same shape). -/
def manager_fee_calc (available_capital : Nat) (risk_limits : RiskLimits) : Nat :=
  available_capital * risk_limits.manager_fee_bps % U64MOD / 10000

/-- `max_single_allocation` of the loop body (plain wrapping `u64`
multiplication). -/
def max_single_calc (available_capital : Nat) (risk_limits : RiskLimits) : Nat :=
  available_capital * risk_limits.max_single_strategy_bps % U64MOD / 10000

/-- `min_single_allocation` of the loop body (plain wrapping `u64`
multiplication). -/
def min_single_calc (available_capital : Nat) (risk_limits : RiskLimits) : Nat :=
  available_capital * risk_limits.min_single_strategy_bps % U64MOD / 10000

/-- Protocol-specific minimum viable amounts of the loop body. -/
def protocol_minimum : ProtocolType → Nat
  | .stableLending _ _ _ => 100000000
  | .yieldFarming _ _ _ _ _ => 500000000
  | .liquidStaking _ _ _ _ => 1000000000

/-- The per-candidate amount of the loop body of
`calculate_optimal_allocation`: the performance-weighted share computed in
`u128` (exact, both factors below `2^64`) and cast `as u64` (`% 2^64`),
clamped down to `max_single_allocation`, zero (skip) when below
`min_single_allocation` or the protocol-specific minimum, then scaled by
the risk adjustment in `u128`, cast `as u64`, and clamped to the remaining
capital.  A zero result stands for the source's `continue` as well as for
a zero adjusted amount: in both cases the loop pushes nothing and leaves
the remaining capital unchanged. -/
def candidate_allocation_amount (available_capital : Nat) (risk_limits : RiskLimits)
    (total_performance_score remaining : Nat) (s : StrategyPerformanceData) : Nat :=
  let performance_allocation :=
    remaining * s.performance_score / total_performance_score
  let max_single := max_single_calc available_capital risk_limits
  let min_single := min_single_calc available_capital risk_limits
  let amount0 := performance_allocation % U64MOD
  let amount1 := if max_single < amount0 then max_single else amount0
  if amount1 < min_single then 0
  else if amount1 < protocol_minimum s.protocol_type then 0
  else
    let adj := calculate_risk_adjustment s.volatility_score risk_limits
    let amount2 := amount1 * adj / 10000 % U64MOD
    if remaining < amount2 then remaining else amount2

/-- The candidate loop of `calculate_optimal_allocation`: breaks when the
remaining capital is zero; per candidate computes
`candidate_allocation_amount` and, when it is positive, pushes an entry
(TopPerformer for the first three enumerate indices, RiskDiversification
afterwards) and subtracts the amount (saturating) from the remaining
capital.  Returns the pushed entries and the final remaining capital. -/
def allocation_loop (available_capital : Nat) (risk_limits : RiskLimits)
    (total_performance_score : Nat) :
    List StrategyPerformanceData → Nat → Nat → List CapitalAllocation × Nat
  | [], _, remaining => ([], remaining)
  | s :: rest, index, remaining =>
    if remaining = 0 then ([], remaining)
    else
      let amount := candidate_allocation_amount available_capital risk_limits
        total_performance_score remaining s
      if 0 < amount then
        let t := if index < 3 then AllocationType.topPerformer
                 else AllocationType.riskDiversification
        let res := allocation_loop available_capital risk_limits
          total_performance_score rest (index + 1) (remaining - amount)
        (⟨s.strategy_id, amount, t⟩ :: res.1, res.2)
      else
        allocation_loop available_capital risk_limits total_performance_score
          rest (index + 1) remaining

/-- The dust sweep of `calculate_optimal_allocation`: adds the leftover to
the first `TopPerformer` entry (if any) with `checked_add`, failing with
`BalanceOverflow` past `u64::MAX`. -/
def update_first_top (dust : Nat) :
    List CapitalAllocation → Except Err (List CapitalAllocation)
  | [] => .ok []
  | a :: rest =>
    if a.allocation_type = AllocationType.topPerformer then
      if a.amount + dust < U64MOD then .ok ({ a with amount := a.amount + dust } :: rest)
      else .error .balanceOverflow
    else do
      let rest' ← update_first_top dust rest
      return a :: rest'

/-- The fee entries pushed first by `calculate_optimal_allocation`: one
`PlatformFee` and one `ManagerIncentive` entry to the configured treasury,
each only when the computed fee is nonzero. -/
def fee_allocations_calc (available_capital : Nat) (risk_limits : RiskLimits) :
    List CapitalAllocation :=
  (if 0 < platform_fee_calc available_capital risk_limits then
    [⟨risk_limits.platform_treasury,
      platform_fee_calc available_capital risk_limits, .platformFee⟩] else []) ++
  (if 0 < manager_fee_calc available_capital risk_limits then
    [⟨risk_limits.manager_treasury,
      manager_fee_calc available_capital risk_limits, .managerIncentive⟩] else [])

/-- The candidate loop of `calculate_optimal_allocation` started at
enumerate index 0 with the capital remaining after both fee deductions
(`saturating_sub`; `Nat` subtraction; subtracting a zero fee is the
identity, so the two guarded subtractions of the source collapse to
unconditional ones). -/
def loop_result (available_capital : Nat) (risk_limits : RiskLimits)
    (top_strategies : List StrategyPerformanceData) :
    List CapitalAllocation × Nat :=
  allocation_loop available_capital risk_limits
    ((top_strategies.map (·.performance_score)).sum) top_strategies 0
    (available_capital - platform_fee_calc available_capital risk_limits -
      manager_fee_calc available_capital risk_limits)

/-- `redistribute_capital::calculate_optimal_allocation`.  The total
performance score is a `u128` sum of `u64` scores over a slice, which is at
most `(2^64 - 1)^2 < 2^128` and therefore never wraps; it is a plain `Nat`
sum here.  The zero-total check is hoisted above the (pure, non-failing)
fee computation, which does not change the result. -/
def calculate_optimal_allocation (available_capital : Nat)
    (top_strategies : List StrategyPerformanceData) (risk_limits : RiskLimits) :
    Except Err (List CapitalAllocation) :=
  if available_capital = 0 then .error .insufficientBalance
  else if top_strategies = [] then .error .insufficientStrategies
  else if (top_strategies.map (·.performance_score)).sum = 0 then
    .error .invalidPerformanceScore
  else
    let allocations := fee_allocations_calc available_capital risk_limits ++
      (loop_result available_capital risk_limits top_strategies).1
    if 1000000 < (loop_result available_capital risk_limits top_strategies).2 ∧
        allocations ≠ [] then
      update_first_top (loop_result available_capital risk_limits top_strategies).2
        allocations
    else .ok allocations

/-- The fold of `redistribute_capital::validate_allocations`, carrying the
set of seen strategy ids (a `HashSet` in the source, a list here) and the
running `u64` total (`checked_add`). -/
def validate_aux : List Nat → Nat → List CapitalAllocation → Except Err Nat
  | _, total, [] => .ok total
  | seen, total, a :: rest =>
    if a.strategy_id ∈ seen then .error .duplicateStrategy
    else if a.amount = 0 then .error .insufficientBalance
    else if U64MAXDIV1000 ≤ a.amount then .error .balanceOverflow
    else if U64MOD ≤ total + a.amount then .error .balanceOverflow
    else validate_aux (a.strategy_id :: seen) (total + a.amount) rest

/-- `redistribute_capital::validate_allocations`. -/
def validate_allocations (allocations : List CapitalAllocation) : Except Err Nat :=
  validate_aux [] 0 allocations

/-- `redistribute_capital::RebalancingPlan`. -/
structure RebalancingPlan where
  extraction_targets : List Nat
  total_to_extract : Nat
  redistribution_plan : List CapitalAllocation
  estimated_fees : Nat
  expected_improvement : Nat
  deriving DecidableEq, Repr

/-- `redistribute_capital::calculate_expected_improvement`: wrapping `u64`
average of the top scores, times 15, divided by 100. -/
def calculate_expected_improvement (top_performers : List StrategyPerformanceData) :
    Nat :=
  if top_performers = [] then 0
  else
    let average_top_score :=
      (top_performers.map (·.performance_score)).sum % U64MOD / top_performers.length
    average_top_score * 15 % U64MOD / 100

/-- The inline average-volatility computation of
`execute_complete_rebalancing`: a `u64` sum of `u32` scores (wrapping would
need at least `2^32` strategy records, each over 100 bytes, so the sum is
exact), divided by the length and cast `as u32` (`% 2^32`). -/
def average_volatility_of (strategies : List StrategyPerformanceData) : Nat :=
  (strategies.map (·.volatility_score)).sum / strategies.length % U32MOD

/-- The underperformer filter of `execute_complete_rebalancing`:
strategies with percentile rank strictly below the dynamic threshold. -/
def underperformers_of (strategies : List StrategyPerformanceData) (dt : Nat) :
    List StrategyPerformanceData :=
  strategies.filter (fun s => s.percentile_rank < dt)

/-- The top-performer filter of `execute_complete_rebalancing`:
percentile rank at least 75, first five in input order. -/
def top_performers_of (strategies : List StrategyPerformanceData) :
    List StrategyPerformanceData :=
  (strategies.filter (fun s => 75 ≤ s.percentile_rank)).take 5

/-- The extractable-capital computation of `execute_complete_rebalancing`:
wrapping `u64` sum over underperformers of
`current_balance.saturating_sub(10_000_000)`. -/
def total_extractable_of (underperformers : List StrategyPerformanceData) : Nat :=
  (underperformers.map (fun s => s.current_balance - 10000000)).sum % U64MOD

/-- `redistribute_capital::execute_complete_rebalancing`. -/
def execute_complete_rebalancing (portfolio : Portfolio)
    (strategies : List StrategyPerformanceData) : Except Err RebalancingPlan :=
  if strategies = [] then .error .insufficientStrategies
  else
    match calculate_dynamic_threshold portfolio.base_threshold
        (average_volatility_of strategies) with
    | .error e => .error e
    | .ok dynamic_threshold =>
      let underperformers := underperformers_of strategies dynamic_threshold
      let top_performers := top_performers_of strategies
      if underperformers = [] then .error .insufficientStrategies
      else if top_performers = [] then .error .insufficientStrategies
      else
        let total_extractable := total_extractable_of underperformers
        if total_extractable ≤ 100000000 then .error .insufficientBalance
        else
          match calculate_optimal_allocation total_extractable top_performers
              RiskLimits.default with
          | .error e => .error e
          | .ok allocations =>
            .ok { extraction_targets := underperformers.map (·.strategy_id)
                  total_to_extract := total_extractable
                  redistribution_plan := allocations
                  estimated_fees := total_extractable * 200 % U64MOD / 10000
                  expected_improvement :=
                    calculate_expected_improvement top_performers }

/-! ## Theorems -/

theorem calculate_dynamic_threshold_le_40 {b v t : Nat}
    (h : calculate_dynamic_threshold b v = .ok t) : t ≤ 40 := by
  unfold calculate_dynamic_threshold at h
  split at h
  · exact absurd h (by simp)
  · simp only [] at h
    split at h
    · exact absurd h (by simp)
    · simp only [Except.ok.injEq] at h
      omega

/-- C5: `calculate_dynamic_threshold` fails with `InvalidRebalanceThreshold`
exactly when the base threshold exceeds 100 (over the `u8`/`u32` input
ranges), otherwise for every average volatility up to 65535 it returns
`clamp(base + avg * 20 / 10000, 10, 40)`; in particular the five values of
the specification hold. -/
theorem C5_dynamic_threshold :
    (∀ base avg : Nat, base < 256 → avg < U32MOD →
      ((calculate_dynamic_threshold base avg = .error .invalidRebalanceThreshold ↔
          100 < base) ∧
        (base ≤ 100 → avg ≤ 65535 →
          calculate_dynamic_threshold base avg =
            .ok (max 10 (min (base + avg * 20 / 10000) 40))))) ∧
    calculate_dynamic_threshold 15 3000 = .ok 21 ∧
    calculate_dynamic_threshold 15 500 = .ok 16 ∧
    calculate_dynamic_threshold 15 10000 = .ok 35 ∧
    calculate_dynamic_threshold 15 15000 = .ok 40 ∧
    calculate_dynamic_threshold 5 100 = .ok 10 := by
  refine ⟨?_, by rfl, by rfl, by rfl, by rfl, by rfl⟩
  intro base avg hb hv
  have hadj : avg * 20 / 10000 ≤ 8589934 := by
    have h1 : avg * 20 ≤ 4294967295 * 20 := by
      have : avg ≤ 4294967295 := by
        have := hv; unfold U32MOD at this; omega
      exact Nat.mul_le_mul_right 20 this
    calc avg * 20 / 10000 ≤ 4294967295 * 20 / 10000 := Nat.div_le_div_right h1
      _ = 8589934 := by norm_num
  have hnoover : ¬ U64MOD ≤ base + avg * 20 / 10000 := by
    unfold U64MOD; omega
  constructor
  · constructor
    · intro h
      by_contra hle
      unfold calculate_dynamic_threshold at h
      rw [if_neg hle, if_neg hnoover] at h
      exact absurd h (by simp)
    · intro h
      unfold calculate_dynamic_threshold
      rw [if_pos h]
  · intro hle hsmall
    have hadj2 : avg * 20 / 10000 ≤ 131 := by
      have h1 : avg * 20 ≤ 65535 * 20 := Nat.mul_le_mul_right 20 hsmall
      calc avg * 20 / 10000 ≤ 65535 * 20 / 10000 := Nat.div_le_div_right h1
        _ = 131 := by norm_num
    unfold calculate_dynamic_threshold
    rw [if_neg (by omega), if_neg hnoover]
    rw [Nat.mod_eq_of_lt (by omega)]

/-- Witness for C5: the general part of the theorem applied at
`base = 15`, `avg = 3000`. -/
theorem C5_dynamic_threshold_witness :
    calculate_dynamic_threshold 15 3000 =
      .ok (max 10 (min (15 + 3000 * 20 / 10000) 40)) :=
  ((C5_dynamic_threshold.1 15 3000 (by decide) (by decide)).2 (by decide)
    (by decide))

/-- C10: `should_rebalance_strategy` returns `true` exactly for an Active
strategy with at least 0.05 SOL (50,000,000 lamports) of balance and a
percentile rank strictly below the portfolio threshold. -/
theorem C10_should_rebalance (s : Strategy) (t : Nat) :
    should_rebalance_strategy s t = true ↔
      (s.status = StrategyStatus.active ∧ 50000000 ≤ s.current_balance ∧
        s.percentile_rank < t) := by
  unfold should_rebalance_strategy
  by_cases h1 : s.status = StrategyStatus.active
  all_goals by_cases h2 : s.current_balance < 50000000
  all_goals simp [h1, h2]
  all_goals omega

theorem assign_and_flag_fst_cons (n i : Nat) (s : StrategyData)
    (rest : List StrategyData) :
    (assign_and_flag n i (s :: rest)).1 =
      { s with percentile_rank := percentile_of n i } ::
        (assign_and_flag n (i + 1) rest).1 := by
  conv_lhs => rw [assign_and_flag]
  simp only []
  split
  · rfl
  · split
    · rfl
    · rfl

theorem assign_and_flag_fst_length (n : Nat) :
    ∀ (l : List StrategyData) (i : Nat),
      ((assign_and_flag n i l).1).length = l.length := by
  intro l
  induction l with
  | nil => intro i; rfl
  | cons s rest ih =>
    intro i
    rw [assign_and_flag_fst_cons, List.length_cons, List.length_cons, ih]

theorem assign_and_flag_fst_getElem? (n : Nat) :
    ∀ (l : List StrategyData) (i j : Nat),
      ((assign_and_flag n i l).1)[j]? =
        (l[j]?).map
          (fun s => { s with percentile_rank := percentile_of n (i + j) }) := by
  intro l
  induction l with
  | nil => intro i j; rfl
  | cons s rest ih =>
    intro i j
    rw [assign_and_flag_fst_cons]
    cases j with
    | zero => simp
    | succ j =>
      rw [List.getElem?_cons_succ, List.getElem?_cons_succ, ih (i + 1) j]
      have : i + 1 + j = i + (j + 1) := by omega
      rw [this]

theorem mem_assign_and_flag_fst (n : Nat) :
    ∀ (l : List StrategyData) (i : Nat) (b : StrategyData),
      b ∈ (assign_and_flag n i l).1 →
        ∃ a ∈ l, ∃ j, b = { a with percentile_rank := percentile_of n j } := by
  intro l
  induction l with
  | nil => intro i b hb; exact absurd hb (by simp [assign_and_flag])
  | cons s rest ih =>
    intro i b hb
    rw [assign_and_flag_fst_cons] at hb
    rcases List.mem_cons.1 hb with hb | hb
    · exact ⟨s, List.mem_cons_self s rest, i, hb⟩
    · obtain ⟨a, ha, j, hj⟩ := ih (i + 1) b hb
      exact ⟨a, List.mem_cons_of_mem s ha, j, hj⟩

theorem rankLE_update (a b : StrategyData) (x y : Nat) :
    rankLE { a with percentile_rank := x } { b with percentile_rank := y } ↔
      rankLE a b := Iff.rfl

theorem assign_and_flag_fst_pairwise (n : Nat) :
    ∀ (l : List StrategyData) (i : Nat), l.Pairwise rankLE →
      ((assign_and_flag n i l).1).Pairwise rankLE := by
  intro l
  induction l with
  | nil => intro i _; exact List.Pairwise.nil
  | cons s rest ih =>
    intro i h
    rw [assign_and_flag_fst_cons]
    rcases List.pairwise_cons.1 h with ⟨hs, hrest⟩
    refine List.pairwise_cons.2 ⟨?_, ih (i + 1) hrest⟩
    intro b hb
    obtain ⟨a, ha, j, rfl⟩ := mem_assign_and_flag_fst n rest (i + 1) b hb
    exact (rankLE_update s a _ _).mpr (hs a ha)

/-- C6: whenever `calculate_percentile_rankings` succeeds, the returned list
has the input's length, is sorted by performance score descending with the
balance-descending and volatility-ascending tie-breaks (`rankLE`), the
strategy at sorted index `i` carries percentile rank
`(N - 1 - i) * 100 / (N - 1)` for `N > 1` and `50` for `N = 1`, and for
`N > 1` the best strategy carries percentile 100 and the worst percentile
0. -/
theorem C6_ranking (strategies ranked : List StrategyData) (unders : List Nat)
    (h : calculate_percentile_rankings strategies = .ok (ranked, unders)) :
    ranked.length = strategies.length ∧
    List.Sorted rankLE ranked ∧
    (∀ i, i < strategies.length →
      (ranked[i]?).map (·.percentile_rank) =
        some (if strategies.length = 1 then 50
              else (strategies.length - 1 - i) * 100 / (strategies.length - 1))) ∧
    (1 < strategies.length →
      ranked.head?.map (·.percentile_rank) = some 100 ∧
      ranked.getLast?.map (·.percentile_rank) = some 0) := by
  unfold calculate_percentile_rankings at h
  split at h
  · exact absurd h (by simp)
  · simp only [Except.ok.injEq] at h
    set sorted := List.insertionSort rankLE strategies with hsorted
    have hranked : (assign_and_flag sorted.length 0 sorted).1 = ranked :=
      congrArg Prod.fst h
    have hlen : sorted.length = strategies.length :=
      (List.perm_insertionSort rankLE strategies).length_eq
    have hrlen : ranked.length = strategies.length := by
      rw [← hranked, assign_and_flag_fst_length, hlen]
    have hform : ∀ i, i < strategies.length →
        (ranked[i]?).map (·.percentile_rank) =
          some (percentile_of strategies.length i) := by
      intro i hi
      have hi2 : i < sorted.length := by omega
      rw [← hranked, assign_and_flag_fst_getElem?,
        List.getElem?_eq_getElem hi2]
      simp [hlen]
    have hpct : ∀ i, i < strategies.length →
        percentile_of strategies.length i =
          if strategies.length = 1 then 50
          else (strategies.length - 1 - i) * 100 / (strategies.length - 1) := by
      intro i hi
      unfold percentile_of
      split
      · rfl
      · rw [Nat.mod_eq_of_lt]
        have h100 : (strategies.length - 1 - i) * 100 / (strategies.length - 1) ≤
            100 := by
          have hle : (strategies.length - 1 - i) * 100 ≤
              (strategies.length - 1) * 100 :=
            Nat.mul_le_mul_right 100 (by omega)
          calc (strategies.length - 1 - i) * 100 / (strategies.length - 1)
              ≤ (strategies.length - 1) * 100 / (strategies.length - 1) :=
                Nat.div_le_div_right hle
            _ = 100 := Nat.mul_div_cancel_left 100 (by omega)
        omega
    refine ⟨hrlen, ?_, ?_, ?_⟩
    · rw [← hranked]
      exact assign_and_flag_fst_pairwise _ _ _
        (List.sorted_insertionSort rankLE strategies)
    · intro i hi
      rw [hform i hi, hpct i hi]
    · intro h1
      constructor
      · rw [List.head?_eq_getElem?, hform 0 (by omega), hpct 0 (by omega)]
        rw [if_neg (by omega)]
        have : (strategies.length - 1 - 0) * 100 / (strategies.length - 1) =
            100 := by
          rw [Nat.sub_zero]
          exact Nat.mul_div_cancel_left 100 (by omega)
        rw [this]
      · rw [List.getLast?_eq_getElem?, hrlen]
        rw [hform (strategies.length - 1) (by omega),
          hpct (strategies.length - 1) (by omega)]
        rw [if_neg (by omega)]
        have : (strategies.length - 1 - (strategies.length - 1)) * 100 /
            (strategies.length - 1) = 0 := by
          rw [Nat.sub_self]
          simp
        rw [this]

/-- Witness for C6: the theorem applied to a concrete three-strategy run;
the best-sorted strategy carries percentile rank 100. -/
theorem C6_ranking_witness :
    (([⟨11, 8000, 1000000000, 2000, 100, 25⟩,
       ⟨12, 6000, 2000000000, 4000, 50, 25⟩,
       ⟨13, 4000, 500000000, 6000, 0, 25⟩] :
        List StrategyData)[0]?).map (·.percentile_rank) =
      some (if ([⟨11, 8000, 1000000000, 2000, 0, 25⟩,
                 ⟨12, 6000, 2000000000, 4000, 0, 25⟩,
                 ⟨13, 4000, 500000000, 6000, 0, 25⟩] :
                  List StrategyData).length = 1 then 50
            else (3 - 1 - 0) * 100 / (3 - 1)) :=
  (C6_ranking
    [⟨11, 8000, 1000000000, 2000, 0, 25⟩,
     ⟨12, 6000, 2000000000, 4000, 0, 25⟩,
     ⟨13, 4000, 500000000, 6000, 0, 25⟩]
    [⟨11, 8000, 1000000000, 2000, 100, 25⟩,
     ⟨12, 6000, 2000000000, 4000, 50, 25⟩,
     ⟨13, 4000, 500000000, 6000, 0, 25⟩]
    [] (by rfl)).2.2.1 0 (by decide)

/-- C1 (code-bug evaluation): on the three-strategy input of the repo's own
unit test `test_percentile_ranking_basic` (which asserts that exactly the
worst strategy's id is returned), `calculate_percentile_rankings` assigns
the percentile ranks but returns an empty underperformer list, because in
the `total_strategies <= 4` branch the push onto the underperformer list is
unreachable. -/
theorem C1_small_portfolio_returns_no_underperformers :
    calculate_percentile_rankings
        [⟨1, 8000, 1000000000, 2000, 0, 25⟩,
         ⟨2, 6000, 2000000000, 4000, 0, 25⟩,
         ⟨3, 4000, 500000000, 6000, 0, 25⟩] =
      .ok ([⟨1, 8000, 1000000000, 2000, 100, 25⟩,
            ⟨2, 6000, 2000000000, 4000, 50, 25⟩,
            ⟨3, 4000, 500000000, 6000, 0, 25⟩], []) := by rfl

theorem calculate_risk_adjustment_eq (v : Nat) (rl : RiskLimits)
    (h : rl.risk_tolerance_bps ≤ 2863311530) :
    calculate_risk_adjustment v rl =
      min ((5000 + (10000 - min v 10000)) * rl.risk_tolerance_bps / 10000)
        15000 := by
  unfold calculate_risk_adjustment
  simp only []
  have hstep : (10000 - min v 10000) * (15000 - 5000) / 10000 =
      10000 - min v 10000 := by
    norm_num
  rw [hstep]
  have hrm : 5000 + (10000 - min v 10000) ≤ 15000 := by
    have := Nat.sub_le 10000 (min v 10000); omega
  have hprod : (5000 + (10000 - min v 10000)) * rl.risk_tolerance_bps < U64MOD := by
    have h1 : (5000 + (10000 - min v 10000)) * rl.risk_tolerance_bps ≤
        15000 * 2863311530 := Nat.mul_le_mul hrm h
    unfold U64MOD; omega
  have hquot : (5000 + (10000 - min v 10000)) * rl.risk_tolerance_bps / 10000 <
      U32MOD := by
    have h1 : (5000 + (10000 - min v 10000)) * rl.risk_tolerance_bps / 10000 ≤
        15000 * 2863311530 / 10000 :=
      Nat.div_le_div_right (Nat.mul_le_mul hrm h)
    have h2 : 15000 * 2863311530 / 10000 = 4294967295 := by norm_num
    unfold U32MOD; omega
  rw [Nat.mod_eq_of_lt hprod, Nat.mod_eq_of_lt hquot]

/-- C8 (amended): for every RiskLimits whose risk tolerance is small enough
that neither the `u64` product nor the `as u32` cast in
`calculate_risk_adjustment` can wrap (`risk_tolerance_bps ≤ 2863311530`),
the function is monotonically non-increasing in the volatility score; with
the default limits (risk tolerance 8000 bps) the output always lies in
`[4000, 12000]`, and volatility 1000 yields a strictly larger result than
volatility 8000. -/
theorem C8_risk_adjustment :
    (∀ (rl : RiskLimits) (v1 v2 : Nat), rl.risk_tolerance_bps ≤ 2863311530 →
        v1 ≤ v2 →
        calculate_risk_adjustment v2 rl ≤ calculate_risk_adjustment v1 rl) ∧
    (∀ v : Nat, 4000 ≤ calculate_risk_adjustment v RiskLimits.default ∧
        calculate_risk_adjustment v RiskLimits.default ≤ 12000) ∧
    calculate_risk_adjustment 8000 RiskLimits.default <
      calculate_risk_adjustment 1000 RiskLimits.default := by
  refine ⟨?_, ?_, by decide⟩
  · intro rl v1 v2 htol hv
    rw [calculate_risk_adjustment_eq v1 rl htol,
      calculate_risk_adjustment_eq v2 rl htol]
    have h1 : min v1 10000 ≤ min v2 10000 := min_le_min hv (le_refl 10000)
    have h2 : 5000 + (10000 - min v2 10000) ≤ 5000 + (10000 - min v1 10000) := by
      omega
    exact min_le_min
      (Nat.div_le_div_right (Nat.mul_le_mul_right _ h2)) (le_refl 15000)
  · intro v
    rw [calculate_risk_adjustment_eq v RiskLimits.default (by decide)]
    have htol : RiskLimits.default.risk_tolerance_bps = 8000 := rfl
    rw [htol]
    have hiub : 10000 - min v 10000 ≤ 10000 := Nat.sub_le _ _
    constructor
    · have hlb : 4000 ≤ (5000 + (10000 - min v 10000)) * 8000 / 10000 := by
        have hm : (5000 : Nat) * 8000 ≤ (5000 + (10000 - min v 10000)) * 8000 :=
          Nat.mul_le_mul_right _ (by omega)
        calc (4000 : Nat) = 5000 * 8000 / 10000 := by norm_num
          _ ≤ (5000 + (10000 - min v 10000)) * 8000 / 10000 :=
            Nat.div_le_div_right hm
      exact le_min hlb (by norm_num)
    · have hub : (5000 + (10000 - min v 10000)) * 8000 / 10000 ≤ 12000 := by
        have hm : (5000 + (10000 - min v 10000)) * 8000 ≤ 15000 * 8000 :=
          Nat.mul_le_mul_right _ (by omega)
        calc (5000 + (10000 - min v 10000)) * 8000 / 10000
            ≤ 15000 * 8000 / 10000 := Nat.div_le_div_right hm
          _ = 12000 := by norm_num
      exact le_trans (min_le_left _ _) hub

/-- Witness for C8: the monotonicity part applied to the default limits at
volatilities 1000 and 8000. -/
theorem C8_risk_adjustment_witness :
    calculate_risk_adjustment 8000 RiskLimits.default ≤
      calculate_risk_adjustment 1000 RiskLimits.default :=
  C8_risk_adjustment.1 RiskLimits.default 1000 8000 (by decide) (by decide)

/-- Counterexample to C8 as stated: with risk tolerance `2^63` (a `u64`
value the claim quantifies over), the wrapping `u64` multiplication makes
`calculate_risk_adjustment` non-monotone: volatility 0 yields 0 while
volatility 1 yields a positive multiplier. -/
theorem C8_not_monotone_for_all_limits :
    calculate_risk_adjustment 0 ⟨4000, 100, 50, 150, 9223372036854775808, 0, 0⟩ <
      calculate_risk_adjustment 1 ⟨4000, 100, 50, 150, 9223372036854775808, 0, 0⟩ := by
  decide

/-- C3 (amended): the platform-fee, manager-fee and max/min
single-strategy cap computations of `calculate_optimal_allocation` are
exact whenever the corresponding `u64` product does not exceed `u64::MAX`;
they are plain wrapping multiplications, not checked ones. -/
theorem C3_capital_products_exact_without_overflow (cap : Nat) (rl : RiskLimits)
    (hp : cap * rl.platform_fee_bps < U64MOD)
    (hm : cap * rl.manager_fee_bps < U64MOD)
    (hmax : cap * rl.max_single_strategy_bps < U64MOD)
    (hmin : cap * rl.min_single_strategy_bps < U64MOD) :
    platform_fee_calc cap rl = cap * rl.platform_fee_bps / 10000 ∧
    manager_fee_calc cap rl = cap * rl.manager_fee_bps / 10000 ∧
    max_single_calc cap rl = cap * rl.max_single_strategy_bps / 10000 ∧
    min_single_calc cap rl = cap * rl.min_single_strategy_bps / 10000 := by
  unfold platform_fee_calc manager_fee_calc max_single_calc min_single_calc
  rw [Nat.mod_eq_of_lt hp, Nat.mod_eq_of_lt hm, Nat.mod_eq_of_lt hmax,
    Nat.mod_eq_of_lt hmin]
  exact ⟨rfl, rfl, rfl, rfl⟩

/-- Witness for C3: the amended theorem applied at 10 SOL of capital with
the default limits. -/
theorem C3_capital_products_exact_witness :
    platform_fee_calc 10000000000 RiskLimits.default =
      10000000000 * RiskLimits.default.platform_fee_bps / 10000 :=
  (C3_capital_products_exact_without_overflow 10000000000 RiskLimits.default
    (by decide) (by decide) (by decide) (by decide)).1

/-- Counterexample to C3 as stated: at `available_capital = 2^63` with the
default limits, the platform-fee multiplication wraps (`2^63 * 50` is an
exact multiple of `2^64`), so the computed fee is 0 although the exact fee
is positive — the computation silently wraps rather than using checked or
saturating arithmetic. -/
theorem C3_platform_fee_wraps_at_2_pow_63 :
    platform_fee_calc 9223372036854775808 RiskLimits.default = 0 ∧
    0 < 9223372036854775808 * RiskLimits.default.platform_fee_bps / 10000 := by
  exact ⟨by rfl, by decide⟩

theorem allocation_loop_cons (cap : Nat) (rl : RiskLimits) (tot : Nat)
    (s : StrategyPerformanceData) (rest : List StrategyPerformanceData)
    (idx remaining : Nat) :
    allocation_loop cap rl tot (s :: rest) idx remaining =
      if remaining = 0 then ([], remaining)
      else
        if 0 < candidate_allocation_amount cap rl tot remaining s then
          (⟨s.strategy_id, candidate_allocation_amount cap rl tot remaining s,
            if idx < 3 then AllocationType.topPerformer
            else AllocationType.riskDiversification⟩ ::
              (allocation_loop cap rl tot rest (idx + 1)
                (remaining - candidate_allocation_amount cap rl tot remaining s)).1,
           (allocation_loop cap rl tot rest (idx + 1)
             (remaining - candidate_allocation_amount cap rl tot remaining s)).2)
        else allocation_loop cap rl tot rest (idx + 1) remaining := by
  conv_lhs => rw [allocation_loop]

theorem candidate_allocation_amount_le (cap : Nat) (rl : RiskLimits)
    (tot remaining : Nat) (s : StrategyPerformanceData) :
    candidate_allocation_amount cap rl tot remaining s ≤ remaining := by
  unfold candidate_allocation_amount
  simp only []
  repeat' split
  all_goals omega

theorem allocation_loop_sum (cap : Nat) (rl : RiskLimits) (tot : Nat) :
    ∀ (l : List StrategyPerformanceData) (idx remaining : Nat),
      (((allocation_loop cap rl tot l idx remaining).1.map (·.amount)).sum +
        (allocation_loop cap rl tot l idx remaining).2) = remaining := by
  intro l
  induction l with
  | nil => intro idx remaining; simp [allocation_loop]
  | cons s rest ih =>
    intro idx remaining
    rw [allocation_loop_cons]
    split
    · simp
    · split
      · have hle := candidate_allocation_amount_le cap rl tot remaining s
        simp only [List.map_cons, List.sum_cons]
        have hrec := ih (idx + 1)
          (remaining - candidate_allocation_amount cap rl tot remaining s)
        omega
      · exact ih (idx + 1) remaining

theorem allocation_loop_amount_pos (cap : Nat) (rl : RiskLimits) (tot : Nat) :
    ∀ (l : List StrategyPerformanceData) (idx remaining : Nat),
      ∀ a ∈ (allocation_loop cap rl tot l idx remaining).1, 0 < a.amount := by
  intro l
  induction l with
  | nil => intro idx remaining a ha; exact absurd ha (by simp [allocation_loop])
  | cons s rest ih =>
    intro idx remaining a ha
    rw [allocation_loop_cons] at ha
    split at ha
    · exact absurd ha (by simp)
    · split at ha
      · rcases List.mem_cons.1 ha with rfl | ha
        · assumption
        · exact ih (idx + 1) _ a ha
      · exact ih (idx + 1) remaining a ha

theorem allocation_loop_types (cap : Nat) (rl : RiskLimits) (tot : Nat) :
    ∀ (l : List StrategyPerformanceData) (idx remaining : Nat),
      ∀ a ∈ (allocation_loop cap rl tot l idx remaining).1,
        a.allocation_type = AllocationType.topPerformer ∨
          a.allocation_type = AllocationType.riskDiversification := by
  intro l
  induction l with
  | nil => intro idx remaining a ha; exact absurd ha (by simp [allocation_loop])
  | cons s rest ih =>
    intro idx remaining a ha
    rw [allocation_loop_cons] at ha
    split at ha
    · exact absurd ha (by simp)
    · split at ha
      · rcases List.mem_cons.1 ha with rfl | ha
        · simp only []
          split
          · exact Or.inl rfl
          · exact Or.inr rfl
        · exact ih (idx + 1) _ a ha
      · exact ih (idx + 1) remaining a ha

theorem allocation_loop_ids_sublist (cap : Nat) (rl : RiskLimits) (tot : Nat) :
    ∀ (l : List StrategyPerformanceData) (idx remaining : Nat),
      ((allocation_loop cap rl tot l idx remaining).1.map (·.strategy_id)).Sublist
        (l.map (·.strategy_id)) := by
  intro l
  induction l with
  | nil => intro idx remaining; simp [allocation_loop]
  | cons s rest ih =>
    intro idx remaining
    rw [allocation_loop_cons]
    split
    · simp
    · split
      · simp only [List.map_cons]
        exact List.Sublist.cons₂ _ (ih (idx + 1) _)
      · exact List.Sublist.cons _ (ih (idx + 1) remaining)

theorem update_first_top_pairs (d : Nat) :
    ∀ (l l' : List CapitalAllocation), update_first_top d l = .ok l' →
      l'.map (fun a => (a.strategy_id, a.allocation_type)) =
        l.map (fun a => (a.strategy_id, a.allocation_type)) := by
  intro l
  induction l with
  | nil =>
    intro l' h
    simp only [update_first_top, Except.ok.injEq] at h
    rw [← h]
  | cons a rest ih =>
    intro l' h
    unfold update_first_top at h
    split at h
    · split at h
      · simp only [Except.ok.injEq] at h
        rw [← h]
        simp
      · exact absurd h (by simp)
    · cases hrec : update_first_top d rest with
      | error e => rw [hrec] at h; exact absurd h (by simp [Except.bind])
      | ok rest' =>
        rw [hrec] at h
        have h2 : (Except.ok (a :: rest') : Except Err (List CapitalAllocation)) =
            Except.ok l' := h
        simp only [Except.ok.injEq] at h2
        rw [← h2]
        simp only [List.map_cons]
        rw [ih rest' hrec]

theorem update_first_top_sum_le (d : Nat) :
    ∀ (l l' : List CapitalAllocation), update_first_top d l = .ok l' →
      ((l'.map (·.amount)).sum ≤ (l.map (·.amount)).sum + d) := by
  intro l
  induction l with
  | nil =>
    intro l' h
    simp only [update_first_top, Except.ok.injEq] at h
    rw [← h]; simp
  | cons a rest ih =>
    intro l' h
    unfold update_first_top at h
    split at h
    · split at h
      · simp only [Except.ok.injEq] at h
        rw [← h]
        simp only [List.map_cons, List.sum_cons]
        omega
      · exact absurd h (by simp)
    · cases hrec : update_first_top d rest with
      | error e => rw [hrec] at h; exact absurd h (by simp [Except.bind])
      | ok rest' =>
        rw [hrec] at h
        have h2 : (Except.ok (a :: rest') : Except Err (List CapitalAllocation)) =
            Except.ok l' := h
        simp only [Except.ok.injEq] at h2
        rw [← h2]
        simp only [List.map_cons, List.sum_cons]
        have := ih rest' hrec
        omega

theorem update_first_top_pos (d : Nat) :
    ∀ (l l' : List CapitalAllocation), update_first_top d l = .ok l' →
      (∀ a ∈ l, 0 < a.amount) → ∀ a ∈ l', 0 < a.amount := by
  intro l
  induction l with
  | nil =>
    intro l' h _ a ha
    simp only [update_first_top, Except.ok.injEq] at h
    rw [← h] at ha
    exact absurd ha (by simp)
  | cons b rest ih =>
    intro l' h hpos a ha
    unfold update_first_top at h
    split at h
    · split at h
      · simp only [Except.ok.injEq] at h
        rw [← h] at ha
        rcases List.mem_cons.1 ha with rfl | ha
        · have := hpos b (List.mem_cons_self b rest)
          simp only []
          omega
        · exact hpos a (List.mem_cons_of_mem b ha)
      · exact absurd h (by simp)
    · cases hrec : update_first_top d rest with
      | error e => rw [hrec] at h; exact absurd h (by simp [Except.bind])
      | ok rest' =>
        rw [hrec] at h
        have h2 : (Except.ok (b :: rest') : Except Err (List CapitalAllocation)) =
            Except.ok l' := h
        simp only [Except.ok.injEq] at h2
        rw [← h2] at ha
        rcases List.mem_cons.1 ha with rfl | ha
        · exact hpos a (List.mem_cons_self a rest)
        · exact ih rest' hrec (fun x hx => hpos x (List.mem_cons_of_mem b hx)) a ha

theorem update_first_top_ok (d : Nat) :
    ∀ (l : List CapitalAllocation), (l.map (·.amount)).sum + d < U64MOD →
      ∃ l', update_first_top d l = .ok l' := by
  intro l
  induction l with
  | nil => intro _; exact ⟨[], rfl⟩
  | cons a rest ih =>
    intro hsum
    simp only [List.map_cons, List.sum_cons] at hsum
    unfold update_first_top
    split
    · rw [if_pos (by omega)]
      exact ⟨_, rfl⟩
    · obtain ⟨rest', hrest⟩ := ih (by omega)
      rw [hrest]
      exact ⟨a :: rest', rfl⟩

theorem fee_sum_le (cap : Nat) (rl : RiskLimits)
    (hfee : rl.platform_fee_bps + rl.manager_fee_bps ≤ 10000) :
    platform_fee_calc cap rl + manager_fee_calc cap rl ≤ cap := by
  unfold platform_fee_calc manager_fee_calc
  have h1 : cap * rl.platform_fee_bps % U64MOD / 10000 ≤
      cap * rl.platform_fee_bps / 10000 :=
    Nat.div_le_div_right (Nat.mod_le _ _)
  have h2 : cap * rl.manager_fee_bps % U64MOD / 10000 ≤
      cap * rl.manager_fee_bps / 10000 :=
    Nat.div_le_div_right (Nat.mod_le _ _)
  have h3 : cap * rl.platform_fee_bps / 10000 + cap * rl.manager_fee_bps / 10000 ≤
      (cap * rl.platform_fee_bps + cap * rl.manager_fee_bps) / 10000 := by
    rw [Nat.le_div_iff_mul_le (by norm_num : 0 < 10000)]
    have hd1 := Nat.div_mul_le_self (cap * rl.platform_fee_bps) 10000
    have hd2 := Nat.div_mul_le_self (cap * rl.manager_fee_bps) 10000
    omega
  have h4 : (cap * rl.platform_fee_bps + cap * rl.manager_fee_bps) / 10000 ≤ cap := by
    have hm : cap * rl.platform_fee_bps + cap * rl.manager_fee_bps ≤ cap * 10000 := by
      rw [← Nat.mul_add]
      exact Nat.mul_le_mul_left cap hfee
    calc (cap * rl.platform_fee_bps + cap * rl.manager_fee_bps) / 10000
        ≤ cap * 10000 / 10000 := Nat.div_le_div_right hm
      _ = cap := Nat.mul_div_cancel cap (by norm_num)
  omega

theorem fee_allocations_sum (pf mf pt mt : Nat) :
    ((((if 0 < pf then [⟨pt, pf, AllocationType.platformFee⟩] else []) ++
        (if 0 < mf then [⟨mt, mf, AllocationType.managerIncentive⟩] else [])) :
          List CapitalAllocation).map (·.amount)).sum = pf + mf := by
  split
  · split
    · simp
    · simp only [List.append_nil, List.map_cons, List.map_nil, List.sum_cons,
        List.sum_nil]
      omega
  · split
    · simp only [List.nil_append, List.map_cons, List.map_nil, List.sum_cons,
        List.sum_nil]
      omega
    · simp only [List.append_nil, List.map_nil, List.sum_nil]
      omega

theorem validate_aux_ok :
    ∀ (l : List CapitalAllocation) (seen : List Nat) (t : Nat),
      (l.map (·.strategy_id)).Nodup →
      (∀ a ∈ l, a.strategy_id ∉ seen) →
      (∀ a ∈ l, 0 < a.amount ∧ a.amount < U64MAXDIV1000) →
      t + (l.map (·.amount)).sum < U64MOD →
      validate_aux seen t l = .ok (t + (l.map (·.amount)).sum) := by
  intro l
  induction l with
  | nil => intro seen t _ _ _ _; simp [validate_aux]
  | cons a rest ih =>
    intro seen t hnodup hseen hok hsum
    simp only [List.map_cons, List.sum_cons] at hsum ⊢
    have hhead := hok a (List.mem_cons_self a rest)
    unfold validate_aux
    rw [if_neg (hseen a (List.mem_cons_self a rest)), if_neg (by omega),
      if_neg (by omega), if_neg (by omega)]
    simp only [List.map_cons, List.nodup_cons] at hnodup
    have hrec := ih (a.strategy_id :: seen) (t + a.amount) hnodup.2
      (by
        intro b hb
        simp only [List.mem_cons]
        push_neg
        refine ⟨?_, hseen b (List.mem_cons_of_mem a hb)⟩
        intro hbid
        exact hnodup.1 (hbid ▸ List.mem_map_of_mem (·.strategy_id) hb))
      (fun b hb => hok b (List.mem_cons_of_mem a hb))
      (by omega)
    rw [hrec]
    rw [Nat.add_assoc]

theorem validate_allocations_ok (l : List CapitalAllocation)
    (hnodup : (l.map (·.strategy_id)).Nodup)
    (hok : ∀ a ∈ l, 0 < a.amount ∧ a.amount < U64MAXDIV1000)
    (hsum : (l.map (·.amount)).sum < U64MOD) :
    validate_allocations l = .ok ((l.map (·.amount)).sum) := by
  unfold validate_allocations
  have := validate_aux_ok l [] 0 hnodup (by simp) hok (by omega)
  rw [this, Nat.zero_add]

theorem optimal_allocation_ok_cases (cap : Nat)
    (tops : List StrategyPerformanceData) (rl : RiskLimits)
    (allocs : List CapitalAllocation)
    (h : calculate_optimal_allocation cap tops rl = .ok allocs) :
    allocs = fee_allocations_calc cap rl ++ (loop_result cap rl tops).1 ∨
      update_first_top (loop_result cap rl tops).2
        (fee_allocations_calc cap rl ++ (loop_result cap rl tops).1) =
          .ok allocs := by
  unfold calculate_optimal_allocation at h
  split at h
  · exact absurd h (by simp)
  · split at h
    · exact absurd h (by simp)
    · split at h
      · exact absurd h (by simp)
      · simp only [] at h
        split at h
        · exact Or.inr h
        · simp only [Except.ok.injEq] at h
          exact Or.inl h.symm

theorem loop_result_sum (cap : Nat) (rl : RiskLimits)
    (tops : List StrategyPerformanceData) :
    ((loop_result cap rl tops).1.map (·.amount)).sum +
        (loop_result cap rl tops).2 =
      cap - platform_fee_calc cap rl - manager_fee_calc cap rl := by
  unfold loop_result
  exact allocation_loop_sum cap rl _ tops 0 _

theorem fee_allocations_calc_sum (cap : Nat) (rl : RiskLimits) :
    ((fee_allocations_calc cap rl).map (·.amount)).sum =
      platform_fee_calc cap rl + manager_fee_calc cap rl := by
  unfold fee_allocations_calc
  exact fee_allocations_sum _ _ _ _

theorem optimal_allocation_sum_le (cap : Nat)
    (tops : List StrategyPerformanceData) (rl : RiskLimits)
    (allocs : List CapitalAllocation)
    (hfee : rl.platform_fee_bps + rl.manager_fee_bps ≤ 10000)
    (h : calculate_optimal_allocation cap tops rl = .ok allocs) :
    (allocs.map (·.amount)).sum ≤ cap := by
  have hfs := fee_sum_le cap rl hfee
  have hloop := loop_result_sum cap rl tops
  have hfeesum := fee_allocations_calc_sum cap rl
  rcases optimal_allocation_ok_cases cap tops rl allocs h with hcase | hcase
  · rw [hcase, List.map_append, List.sum_append, hfeesum]
    omega
  · have hle := update_first_top_sum_le _ _ _ hcase
    rw [List.map_append, List.sum_append, hfeesum] at hle
    omega

theorem fee_allocations_calc_pos (cap : Nat) (rl : RiskLimits) :
    ∀ a ∈ fee_allocations_calc cap rl, 0 < a.amount := by
  intro a ha
  unfold fee_allocations_calc at ha
  rcases List.mem_append.1 ha with ha | ha
  · split at ha
    · rename_i hpf
      rw [List.mem_singleton] at ha
      rw [ha]
      exact hpf
    · exact absurd ha (by simp)
  · split at ha
    · rename_i hmf
      rw [List.mem_singleton] at ha
      rw [ha]
      exact hmf
    · exact absurd ha (by simp)

theorem optimal_allocation_pos (cap : Nat)
    (tops : List StrategyPerformanceData) (rl : RiskLimits)
    (allocs : List CapitalAllocation)
    (h : calculate_optimal_allocation cap tops rl = .ok allocs) :
    ∀ a ∈ allocs, 0 < a.amount := by
  have hpre : ∀ a ∈ fee_allocations_calc cap rl ++ (loop_result cap rl tops).1,
      0 < a.amount := by
    intro a ha
    rcases List.mem_append.1 ha with ha | ha
    · exact fee_allocations_calc_pos cap rl a ha
    · exact allocation_loop_amount_pos cap rl _ tops 0 _ a ha
  rcases optimal_allocation_ok_cases cap tops rl allocs h with hcase | hcase
  · intro a ha
    exact hpre a (hcase ▸ ha)
  · exact update_first_top_pos _ _ _ hcase hpre

theorem fee_allocations_calc_mem (cap : Nat) (rl : RiskLimits) :
    ∀ a ∈ fee_allocations_calc cap rl,
      (a.allocation_type = AllocationType.platformFee ∧
        a.strategy_id = rl.platform_treasury) ∨
      (a.allocation_type = AllocationType.managerIncentive ∧
        a.strategy_id = rl.manager_treasury) := by
  intro a ha
  unfold fee_allocations_calc at ha
  rcases List.mem_append.1 ha with ha | ha
  · split at ha
    · rw [List.mem_singleton] at ha
      rw [ha]
      exact Or.inl ⟨rfl, rfl⟩
    · exact absurd ha (by simp)
  · split at ha
    · rw [List.mem_singleton] at ha
      rw [ha]
      exact Or.inr ⟨rfl, rfl⟩
    · exact absurd ha (by simp)

theorem optimal_allocation_nonfee_ids (cap : Nat)
    (tops : List StrategyPerformanceData) (rl : RiskLimits)
    (allocs : List CapitalAllocation)
    (h : calculate_optimal_allocation cap tops rl = .ok allocs) :
    ∀ a ∈ allocs,
      (a.allocation_type = AllocationType.topPerformer ∨
        a.allocation_type = AllocationType.riskDiversification) →
      a.strategy_id ∈ tops.map (·.strategy_id) := by
  have hpre : ∀ a ∈ fee_allocations_calc cap rl ++ (loop_result cap rl tops).1,
      (a.allocation_type = AllocationType.topPerformer ∨
        a.allocation_type = AllocationType.riskDiversification) →
      a.strategy_id ∈ tops.map (·.strategy_id) := by
    intro a ha htype
    rcases List.mem_append.1 ha with ha | ha
    · rcases fee_allocations_calc_mem cap rl a ha with ⟨ht, _⟩ | ⟨ht, _⟩ <;>
        rcases htype with h2 | h2 <;> rw [ht] at h2 <;> exact absurd h2 (by simp)
    · have hsub : ((loop_result cap rl tops).1.map (·.strategy_id)).Sublist
          (tops.map (·.strategy_id)) := by
        unfold loop_result
        exact allocation_loop_ids_sublist cap rl _ tops 0 _
      exact hsub.subset (List.mem_map_of_mem (·.strategy_id) ha)
  rcases optimal_allocation_ok_cases cap tops rl allocs h with hcase | hcase
  · intro a ha htype
    exact hpre a (hcase ▸ ha) htype
  · intro a ha htype
    have hpairs := update_first_top_pairs _ _ _ hcase
    have hmem : (a.strategy_id, a.allocation_type) ∈
        (fee_allocations_calc cap rl ++ (loop_result cap rl tops).1).map
          (fun b => (b.strategy_id, b.allocation_type)) := by
      rw [← hpairs]
      exact List.mem_map_of_mem _ ha
    obtain ⟨b, hb, hbeq⟩ := List.mem_map.1 hmem
    simp only [Prod.mk.injEq] at hbeq
    rw [← hbeq.1]
    exact hpre b hb (by rw [hbeq.2]; exact htype)

theorem optimal_allocation_ids_eq (cap : Nat)
    (tops : List StrategyPerformanceData) (rl : RiskLimits)
    (allocs : List CapitalAllocation)
    (h : calculate_optimal_allocation cap tops rl = .ok allocs) :
    allocs.map (·.strategy_id) =
      (fee_allocations_calc cap rl ++ (loop_result cap rl tops).1).map
        (·.strategy_id) := by
  rcases optimal_allocation_ok_cases cap tops rl allocs h with hcase | hcase
  · rw [hcase]
  · have hpairs := update_first_top_pairs _ _ _ hcase
    have h1 : allocs.map (·.strategy_id) =
        (allocs.map (fun a => (a.strategy_id, a.allocation_type))).map Prod.fst := by
      rw [List.map_map]; rfl
    have h2 : (fee_allocations_calc cap rl ++ (loop_result cap rl tops).1).map
          (·.strategy_id) =
        ((fee_allocations_calc cap rl ++ (loop_result cap rl tops).1).map
          (fun a => (a.strategy_id, a.allocation_type))).map Prod.fst := by
      rw [List.map_map]; rfl
    rw [h1, h2, hpairs]

theorem optimal_allocation_ids_nodup (cap : Nat)
    (tops : List StrategyPerformanceData) (rl : RiskLimits)
    (allocs : List CapitalAllocation)
    (htr : rl.platform_treasury ≠ rl.manager_treasury)
    (hnodup : (tops.map (·.strategy_id)).Nodup)
    (hdisj : ∀ s ∈ tops, s.strategy_id ≠ rl.platform_treasury ∧
      s.strategy_id ≠ rl.manager_treasury)
    (h : calculate_optimal_allocation cap tops rl = .ok allocs) :
    (allocs.map (·.strategy_id)).Nodup := by
  rw [optimal_allocation_ids_eq cap tops rl allocs h, List.map_append]
  have hsub : ((loop_result cap rl tops).1.map (·.strategy_id)).Sublist
      (tops.map (·.strategy_id)) := by
    unfold loop_result
    exact allocation_loop_ids_sublist cap rl _ tops 0 _
  have hfeeids : ∀ x ∈ (fee_allocations_calc cap rl).map (·.strategy_id),
      x = rl.platform_treasury ∨ x = rl.manager_treasury := by
    intro x hx
    obtain ⟨b, hb, rfl⟩ := List.mem_map.1 hx
    rcases fee_allocations_calc_mem cap rl b hb with ⟨_, hid⟩ | ⟨_, hid⟩
    · exact Or.inl hid
    · exact Or.inr hid
  refine List.nodup_append.2 ⟨?_, hsub.nodup hnodup, ?_⟩
  · unfold fee_allocations_calc
    rw [List.map_append]
    split
    · split
      · simp only [List.map_cons, List.map_nil]
        exact List.nodup_cons.2 (by simp [htr])
      · simp
    · split
      · simp
      · simp
  · intro x hx hx2
    have hxt : x ∈ tops.map (·.strategy_id) := hsub.subset hx2
    obtain ⟨s, hs, rfl⟩ := List.mem_map.1 hxt
    rcases hfeeids _ hx with hid | hid
    · exact (hdisj s hs).1 hid
    · exact (hdisj s hs).2 hid

theorem optimal_allocation_ok_of (cap : Nat)
    (tops : List StrategyPerformanceData) (rl : RiskLimits)
    (hcap : cap ≠ 0) (htops : tops ≠ []) (hU : cap < U64MOD)
    (hfee : rl.platform_fee_bps + rl.manager_fee_bps ≤ 10000)
    (htot : 0 < (tops.map (·.performance_score)).sum) :
    ∃ allocs, calculate_optimal_allocation cap tops rl = .ok allocs := by
  unfold calculate_optimal_allocation
  rw [if_neg hcap, if_neg htops, if_neg (by omega)]
  simp only []
  split
  · apply update_first_top_ok
    have hfs := fee_sum_le cap rl hfee
    have hloop := loop_result_sum cap rl tops
    have hfeesum := fee_allocations_calc_sum cap rl
    rw [List.map_append, List.sum_append, hfeesum]
    omega
  · exact ⟨_, rfl⟩

theorem optimal_allocation_invalid_score (cap : Nat)
    (tops : List StrategyPerformanceData) (rl : RiskLimits)
    (hcap : cap ≠ 0) (htops : tops ≠ [])
    (htot : (tops.map (·.performance_score)).sum = 0) :
    calculate_optimal_allocation cap tops rl = .error .invalidPerformanceScore := by
  unfold calculate_optimal_allocation
  rw [if_neg hcap, if_neg htops, if_pos htot]

/-- C2 (amended): for every available capital, candidate list and
`RiskLimits` whose two fee rates total at most 100% (10000 bps — the
default limits use 200), whenever `calculate_optimal_allocation` succeeds
the amounts of the returned allocations (fees, performer allocations and
swept dust) sum to at most the available capital. -/
theorem C2_allocation_sum_bounded (cap : Nat)
    (tops : List StrategyPerformanceData) (rl : RiskLimits)
    (allocs : List CapitalAllocation)
    (hfee : rl.platform_fee_bps + rl.manager_fee_bps ≤ 10000)
    (h : calculate_optimal_allocation cap tops rl = .ok allocs) :
    (allocs.map (·.amount)).sum ≤ cap :=
  optimal_allocation_sum_le cap tops rl allocs hfee h

/-- Witness for C2: the amended theorem applied to a successful concrete
run (10 SOL, one candidate, default limits). -/
theorem C2_allocation_sum_bounded_witness :
    ((([⟨0, 50000000, .platformFee⟩, ⟨0, 150000000, .managerIncentive⟩,
        ⟨5, 9800000000, .topPerformer⟩] : List CapitalAllocation).map
          (·.amount)).sum) ≤ 10000000000 :=
  C2_allocation_sum_bounded 10000000000
    [⟨5, 8000, 1000000000, 2000, .stableLending 1 2 7500, 90⟩]
    RiskLimits.default
    [⟨0, 50000000, .platformFee⟩, ⟨0, 150000000, .managerIncentive⟩,
      ⟨5, 9800000000, .topPerformer⟩]
    (by decide) (by rfl)

/-- Counterexample to C2 as stated: with platform fee 20000 bps (200%), a
`RiskLimits` value the claim quantifies over, the fee entry alone is twice
the available capital, so the produced amounts sum to 200 > 100. -/
theorem C2_sum_exceeds_capital_for_some_limits :
    calculate_optimal_allocation 100
        [⟨7, 5, 0, 0, .stableLending 1 2 3, 90⟩]
        ⟨4000, 100, 20000, 0, 8000, 0, 1⟩ =
      .ok [⟨0, 200, .platformFee⟩] ∧
    100 <
      ((([⟨0, 200, .platformFee⟩] : List CapitalAllocation).map (·.amount)).sum) := by
  exact ⟨by rfl, by decide⟩

/-- C4 (amended): the allocate-then-validate round trip holds whenever the
produced strategy identifiers cannot collide: the two treasuries differ
(the default `RiskLimits` sets both to `Pubkey::default()`, which breaks
the round trip), the candidate ids are pairwise distinct and different
from both treasuries, the fee rates total at most 10000 bps, and the
available capital is below `u64::MAX / 1000` (the per-amount bound checked
by `validate_allocations`).  Then `validate_allocations` succeeds and
returns exactly the sum of the produced amounts. -/
theorem C4_validate_roundtrip (cap : Nat)
    (tops : List StrategyPerformanceData) (rl : RiskLimits)
    (allocs : List CapitalAllocation)
    (hfee : rl.platform_fee_bps + rl.manager_fee_bps ≤ 10000)
    (hcap : cap < U64MAXDIV1000)
    (htr : rl.platform_treasury ≠ rl.manager_treasury)
    (hnodup : (tops.map (·.strategy_id)).Nodup)
    (hdisj : ∀ s ∈ tops, s.strategy_id ≠ rl.platform_treasury ∧
      s.strategy_id ≠ rl.manager_treasury)
    (h : calculate_optimal_allocation cap tops rl = .ok allocs) :
    validate_allocations allocs = .ok ((allocs.map (·.amount)).sum) := by
  have hsum := optimal_allocation_sum_le cap tops rl allocs hfee h
  apply validate_allocations_ok
  · exact optimal_allocation_ids_nodup cap tops rl allocs htr hnodup hdisj h
  · intro a ha
    refine ⟨optimal_allocation_pos cap tops rl allocs h a ha, ?_⟩
    have hmem : a.amount ∈ allocs.map (·.amount) := List.mem_map_of_mem _ ha
    have hle : a.amount ≤ (allocs.map (·.amount)).sum :=
      List.single_le_sum (fun x _ => Nat.zero_le x) _ hmem
    omega
  · have : U64MAXDIV1000 < U64MOD := by unfold U64MAXDIV1000 U64MOD; omega
    omega

/-- Witness for C4: the amended theorem applied to a successful concrete
run with distinct treasuries (1 and 2) and one candidate (id 5). -/
theorem C4_validate_roundtrip_witness :
    validate_allocations
        [⟨1, 50000000, .platformFee⟩, ⟨2, 150000000, .managerIncentive⟩,
          ⟨5, 9800000000, .topPerformer⟩] =
      .ok ((([⟨1, 50000000, .platformFee⟩, ⟨2, 150000000, .managerIncentive⟩,
          ⟨5, 9800000000, .topPerformer⟩] : List CapitalAllocation).map
            (·.amount)).sum) :=
  C4_validate_roundtrip 10000000000
    [⟨5, 8000, 1000000000, 2000, .stableLending 1 2 7500, 90⟩]
    ⟨4000, 100, 50, 150, 8000, 1, 2⟩
    [⟨1, 50000000, .platformFee⟩, ⟨2, 150000000, .managerIncentive⟩,
      ⟨5, 9800000000, .topPerformer⟩]
    (by decide) (by decide) (by decide) (by decide)
    (by decide) (by rfl)

/-- Counterexample to C4 as stated: with the default `RiskLimits` both fee
entries go to `Pubkey::default()`, so the round trip fails with
`DuplicateStrategy` on a plain successful allocation. -/
theorem C4_roundtrip_fails_with_default_limits :
    calculate_optimal_allocation 10000000000
        [⟨5, 8000, 1000000000, 2000, .stableLending 1 2 7500, 90⟩]
        RiskLimits.default =
      .ok [⟨0, 50000000, .platformFee⟩, ⟨0, 150000000, .managerIncentive⟩,
        ⟨5, 9800000000, .topPerformer⟩] ∧
    validate_allocations
        [⟨0, 50000000, .platformFee⟩, ⟨0, 150000000, .managerIncentive⟩,
          ⟨5, 9800000000, .topPerformer⟩] =
      .error .duplicateStrategy := by
  exact ⟨by rfl, by rfl⟩

/-- C7 (amended): once `execute_complete_rebalancing` has a dynamic
threshold and non-empty underperformer and top-performer sets, it fails
with `InsufficientBalance` exactly when the extractable capital (the
wrapping `u64` sum over underperformers of
`current_balance.saturating_sub(10_000_000)`) is at most 100,000,000; when
that sum is larger and the top performers' total performance score is
positive (the case the claim omits: a zero total makes the allocator fail
with `InvalidPerformanceScore` instead), it succeeds with
`total_to_extract` equal to that sum. -/
theorem C7_insufficient_balance_iff (portfolio : Portfolio)
    (strategies : List StrategyPerformanceData) (dt : Nat)
    (hdt : calculate_dynamic_threshold portfolio.base_threshold
        (average_volatility_of strategies) = .ok dt)
    (hunder : underperformers_of strategies dt ≠ [])
    (htops : top_performers_of strategies ≠ []) :
    (execute_complete_rebalancing portfolio strategies =
        .error .insufficientBalance ↔
      total_extractable_of (underperformers_of strategies dt) ≤ 100000000) ∧
    (100000000 < total_extractable_of (underperformers_of strategies dt) →
      0 < ((top_performers_of strategies).map (·.performance_score)).sum →
      ∃ plan, execute_complete_rebalancing portfolio strategies = .ok plan ∧
        plan.total_to_extract =
          total_extractable_of (underperformers_of strategies dt)) := by
  have hne : strategies ≠ [] := by
    intro heq
    subst heq
    exact hunder rfl
  have hexec : execute_complete_rebalancing portfolio strategies =
      if total_extractable_of (underperformers_of strategies dt) ≤ 100000000 then
        .error .insufficientBalance
      else
        match calculate_optimal_allocation
            (total_extractable_of (underperformers_of strategies dt))
            (top_performers_of strategies) RiskLimits.default with
        | .error e => .error e
        | .ok allocations =>
          .ok { extraction_targets :=
                  (underperformers_of strategies dt).map (·.strategy_id)
                total_to_extract :=
                  total_extractable_of (underperformers_of strategies dt)
                redistribution_plan := allocations
                estimated_fees :=
                  total_extractable_of (underperformers_of strategies dt) * 200 %
                    U64MOD / 10000
                expected_improvement :=
                  calculate_expected_improvement (top_performers_of strategies) } := by
    unfold execute_complete_rebalancing
    rw [if_neg hne, hdt]
    simp only []
    rw [if_neg hunder, if_neg htops]
  rw [hexec]
  by_cases hext :
      total_extractable_of (underperformers_of strategies dt) ≤ 100000000
  · rw [if_pos hext]
    refine ⟨⟨fun _ => hext, fun _ => rfl⟩, fun h1 _ => absurd hext (by omega)⟩
  · rw [if_neg hext]
    have hcap : total_extractable_of (underperformers_of strategies dt) ≠ 0 := by
      omega
    have hU : total_extractable_of (underperformers_of strategies dt) < U64MOD := by
      unfold total_extractable_of
      exact Nat.mod_lt _ (by unfold U64MOD; omega)
    constructor
    · constructor
      · intro habs
        by_cases htot :
            ((top_performers_of strategies).map (·.performance_score)).sum = 0
        · rw [optimal_allocation_invalid_score _ _ _ hcap htops htot] at habs
          exact absurd habs (by simp)
        · obtain ⟨allocs, hok⟩ := optimal_allocation_ok_of _ _
            RiskLimits.default hcap htops hU (by decide) (by omega)
          rw [hok] at habs
          exact absurd habs (by simp)
      · intro hle
        exact absurd hle hext
    · intro h1 htot
      obtain ⟨allocs, hok⟩ := optimal_allocation_ok_of _ _
        RiskLimits.default hcap htops hU (by decide) (by omega)
      rw [hok]
      exact ⟨_, rfl, rfl⟩

/-- Witness for C7: the InsufficientBalance characterization applied to a
concrete two-strategy run (base threshold 15, average volatility 5000,
dynamic threshold 25). -/
theorem C7_insufficient_balance_iff_witness :
    (execute_complete_rebalancing ⟨1000, 0, 0, 0, 0, 2, 200, 15, false⟩
        [⟨1, 9000, 5000000000, 1500, .stableLending 1 2 8000, 95⟩,
         ⟨2, 2000, 2000000000, 8500, .yieldFarming 1 2 3 1000 1, 15⟩] =
        .error .insufficientBalance ↔
      total_extractable_of
          (underperformers_of
            [⟨1, 9000, 5000000000, 1500, .stableLending 1 2 8000, 95⟩,
             ⟨2, 2000, 2000000000, 8500, .yieldFarming 1 2 3 1000 1, 15⟩] 25) ≤
        100000000) :=
  (C7_insufficient_balance_iff ⟨1000, 0, 0, 0, 0, 2, 200, 15, false⟩
    [⟨1, 9000, 5000000000, 1500, .stableLending 1 2 8000, 95⟩,
     ⟨2, 2000, 2000000000, 8500, .yieldFarming 1 2 3 1000 1, 15⟩]
    25 (by rfl) (by decide) (by decide)).1

/-- Counterexample to C7 as stated: with a top performer of performance
score 0, the workflow reaches non-empty underperformer and top-performer
sets with extractable capital 1,990,000,000 > 100,000,000 and still fails
— with `InvalidPerformanceScore`, not success. -/
theorem C7_can_fail_above_minimum :
    execute_complete_rebalancing ⟨1000, 0, 0, 0, 0, 2, 200, 15, false⟩
        [⟨1, 0, 5000000000, 1500, .stableLending 1 2 8000, 95⟩,
         ⟨2, 2000, 2000000000, 8500, .yieldFarming 1 2 3 1000 1, 15⟩] =
      .error .invalidPerformanceScore ∧
    100000000 < total_extractable_of
        (underperformers_of
          [⟨1, 0, 5000000000, 1500, .stableLending 1 2 8000, 95⟩,
           ⟨2, 2000, 2000000000, 8500, .yieldFarming 1 2 3 1000 1, 15⟩] 25) := by
  exact ⟨by rfl, by decide⟩

/-- C9: on a strategy list with pairwise-distinct identifiers, a successful
`execute_complete_rebalancing` never lists the same identifier both as an
extraction target and in a non-fee (TopPerformer or RiskDiversification)
entry of the redistribution plan: extraction targets have percentile rank
strictly below the dynamic threshold (at most 40), funded candidates have
percentile rank at least 75. -/
theorem C9_extraction_disjoint_from_funding (portfolio : Portfolio)
    (strategies : List StrategyPerformanceData) (plan : RebalancingPlan)
    (hnodup : (strategies.map (·.strategy_id)).Nodup)
    (h : execute_complete_rebalancing portfolio strategies = .ok plan) :
    ∀ idt ∈ plan.extraction_targets, ∀ a ∈ plan.redistribution_plan,
      (a.allocation_type = AllocationType.topPerformer ∨
        a.allocation_type = AllocationType.riskDiversification) →
      a.strategy_id ≠ idt := by
  unfold execute_complete_rebalancing at h
  split at h
  · exact absurd h (by simp)
  · split at h
    · exact absurd h (by simp)
    · rename_i dt hdt
      simp only [] at h
      split at h
      · exact absurd h (by simp)
      · split at h
        · exact absurd h (by simp)
        · split at h
          · exact absurd h (by simp)
          · split at h
            · exact absurd h (by simp)
            · rename_i allocs hallocs
              simp only [Except.ok.injEq] at h
              subst h
              intro idt hid a ha htype
              obtain ⟨s1, hs1, hs1id⟩ := List.mem_map.1 hid
              unfold underperformers_of at hs1
              have hs1mem := List.mem_filter.1 hs1
              have hs1rank : s1.percentile_rank < dt := by
                simpa using hs1mem.2
              have hdtle : dt ≤ 40 := calculate_dynamic_threshold_le_40 hdt
              have hids := optimal_allocation_nonfee_ids _ _ _ _ hallocs a ha htype
              obtain ⟨s2, hs2, hs2id⟩ := List.mem_map.1 hids
              unfold top_performers_of at hs2
              have hs2mem := List.mem_filter.1 (List.mem_of_mem_take hs2)
              have hs2rank : 75 ≤ s2.percentile_rank := by
                simpa using hs2mem.2
              intro heq
              have hsid : s2.strategy_id = s1.strategy_id := by
                rw [hs2id, heq, ← hs1id]
              have hss : s2 = s1 :=
                List.inj_on_of_nodup_map hnodup hs2mem.1 hs1mem.1 hsid
              rw [hss] at hs2rank
              omega

/-- Witness for C9: the theorem applied to a concrete successful
rebalancing run; the funded strategy (id 1) differs from the extraction
target (id 2). -/
theorem C9_extraction_disjoint_witness :
    (⟨1, 1950200000, .topPerformer⟩ : CapitalAllocation).strategy_id ≠ 2 :=
  C9_extraction_disjoint_from_funding ⟨1000, 0, 0, 0, 0, 2, 200, 15, false⟩
    [⟨1, 9000, 5000000000, 1500, .stableLending 1 2 8000, 95⟩,
     ⟨2, 2000, 2000000000, 8500, .yieldFarming 1 2 3 1000 1, 15⟩]
    ⟨[2], 1990000000,
      [⟨0, 9950000, .platformFee⟩, ⟨0, 29850000, .managerIncentive⟩,
        ⟨1, 1950200000, .topPerformer⟩], 39800000, 1350⟩
    (by decide) (by rfl) 2 (by decide)
    ⟨1, 1950200000, .topPerformer⟩ (by decide) (Or.inl rfl)

end Rebalancer
